import Mathlib

/-!
Verification of the killamani repository's natal-chart specification.

The repository ships the frontend (TypeScript types, UI components, auth
store/service, i18n configuration) under src/; the chart-calculation engine
itself (coordinate normalizer, house-system calculator, house assigner,
aspect detector, assembler, renderer) is described by the specification but
its implementation is not among the provided source files.  Definitions for
those components are therefore modelled from the specification's own words
(marked `Modelled from the spec:`); definitions for the auth flow and the
i18n language tables are translated directly from the TypeScript source.

Machine reals of the engine are modelled as ℚ (the spec's formulas are
exact arithmetic: floor, mod, comparisons).
-/

/- ===================== i18n language tables ===================== -/

/-- Language codes declared in `SUPPORTED_LANGUAGES` in the i18n
configuration (src/unnamed/part_007, i18n/config.ts):
`['es', 'en', 'it', 'fr', 'de', 'pt'] as const`. -/
def SUPPORTED_LANGUAGES : List String := ["es", "en", "it", "fr", "de", "pt"]

/-- Values of the `SupportedLanguage` union type exported from the shared
types module (src/frontend/src/types/index.ts line 211):
`'es' | 'en' | 'it' | 'fr' | 'de' | 'pt-br'`. -/
def sharedTypesSupportedLanguage : List String :=
  ["es", "en", "it", "fr", "de", "pt-br"]

/- ===================== Auth logout flow ===================== -/

/-- Token storage (the two localStorage entries the auth service touches). -/
structure TokenStorage where
  accessToken : Option String
  refreshToken : Option String
deriving Repr, DecidableEq

/-- Auth store state (user, isAuthenticated, isLoading, error fields of the
Zustand store in src/unnamed/part_001). The user is modelled opaquely as an
optional id. -/
structure AuthState where
  user : Option String
  isAuthenticated : Bool
  isLoading : Bool
  error : Option String
deriving Repr, DecidableEq

/-- Translation of `authService.logout` (src/unnamed/part_002 lines 68-76):
`try { await apiClient.post('/api/auth/logout') } finally {
localStorage.removeItem('accessToken'); localStorage.removeItem('refreshToken') }`.
The API call's outcome is the boolean `apiFails`; the `finally` block clears
both tokens on either path, and a failing call re-raises after the
`finally`, modelled as `Except.error`. -/
def authServiceLogout (apiFails : Bool) (sto : TokenStorage) :
    Except Unit Unit × TokenStorage :=
  let sto' : TokenStorage := { sto with accessToken := none, refreshToken := none }
  (if apiFails then Except.error () else Except.ok (), sto')

/-- Translation of `useAuthStore.logout` (src/unnamed/part_001 lines 59-68):
sets `isLoading: true`, awaits `authService.logout()`, and on both the
success path and the catch path sets
`{ user: null, isAuthenticated: false, isLoading: false }`. -/
def useAuthStoreLogout (apiFails : Bool) (st : AuthState) (sto : TokenStorage) :
    AuthState × TokenStorage :=
  let st1 : AuthState := { st with isLoading := true }
  let r := authServiceLogout apiFails sto
  match r.1 with
  | Except.ok _ =>
      ({ st1 with user := none, isAuthenticated := false, isLoading := false }, r.2)
  | Except.error _ =>
      ({ st1 with user := none, isAuthenticated := false, isLoading := false }, r.2)

/- ===================== CoordinateNormalizer ===================== -/

/-- Raw ephemeris output for one body: ecliptic longitude, latitude,
distance, longitudinal speed (deg/day). Matches the `positionAt` contract
of spec section 4.1 and the numeric fields of `CelestialPosition`
(src/frontend/src/types/index.ts lines 93-105). -/
structure RawPosition where
  longitude : ℚ
  latitude : ℚ
  distance : ℚ
  speed : ℚ
deriving Repr, DecidableEq

/-- Normalized coordinates: zodiac sign index, integer degree/minute/second,
retrograde flag (spec section 4.2, `CelestialPosition` fields). -/
structure NormalizedPosition where
  signIndex : ℤ
  degree : ℤ
  minute : ℤ
  second : ℤ
  isRetrograde : Bool
deriving Repr, DecidableEq

/-- Modelled from the spec: the CoordinateNormalizer implementation is not
in src/; spec section 4.2 gives `signIndex = floor(longitude / 30) mod 12`. -/
def signIndexOf (lon : ℚ) : ℤ := ⌊lon / 30⌋ % 12

/-- Modelled from the spec: the CoordinateNormalizer implementation is not
in src/; spec section 4.2 gives `degree = longitude mod 30`, decomposed into
integer degree/minute/second using round-half-up at the second boundary. -/
def dmsOf (lon : ℚ) : ℤ × ℤ × ℤ :=
  let dpart : ℚ := lon - 30 * ⌊lon / 30⌋
  let d : ℤ := ⌊dpart⌋
  let mfrac : ℚ := (dpart - d) * 60
  let m : ℤ := ⌊mfrac⌋
  let sfrac : ℚ := (mfrac - m) * 60
  let s : ℤ := ⌊sfrac + 1/2⌋
  (d, m, s)

/-- Modelled from the spec: the CoordinateNormalizer implementation is not
in src/; spec section 4.2: sign/degree-minute-second decomposition and
`isRetrograde = speed < 0` strictly. -/
def normalizePosition (p : RawPosition) : NormalizedPosition :=
  let dms := dmsOf p.longitude
  { signIndex := signIndexOf p.longitude
    degree := dms.1
    minute := dms.2.1
    second := dms.2.2
    isRetrograde := decide (p.speed < 0) }

/- ===================== Circle arithmetic ===================== -/

/-- Reduction of an angle into [0,360). -/
def norm360 (x : ℚ) : ℚ := x - 360 * ⌊x / 360⌋

/- ===================== HouseSystemCalculator ===================== -/

/-- House-system variants listed in spec section 4.3. -/
inductive HouseSystem where
  | placidus
  | koch
  | equalHouse
  | wholeSign
  | campanus
  | regiomontanus
  | porphyry
  | topocentric
deriving Repr, DecidableEq

/-- Inputs of a house-system variant per spec section 4.3: local sidereal
time at birth, geographic latitude, obliquity of the ecliptic. -/
structure BirthGeometry where
  lst : ℚ
  latitude : ℚ
  obliquity : ℚ
deriving Repr, DecidableEq

/-- Result of the house-system calculator: 12 cusp longitudes plus the
Ascendant/Midheaven, the house system actually used and the fallback flag
(spec sections 3 and 4.3, `NatalChart` fields in
src/frontend/src/types/index.ts lines 135-161). -/
structure HouseCalcResult where
  cusps : List ℚ
  ascendant : ℚ
  midheaven : ℚ
  houseSystemUsed : HouseSystem
  fallbackOccurred : Bool
deriving Repr, DecidableEq

/-- Modelled from the spec: the HouseSystemCalculator implementation is not
in src/. Equal House places the 12 cusps at 30-degree steps from the
Ascendant. -/
def equalHouseCusps (asc : ℚ) : List ℚ :=
  (List.range 12).map (fun i : ℕ => norm360 (asc + 30 * (i : ℚ)))

/-- Modelled from the spec: the HouseSystemCalculator implementation is not
in src/. Spec section 4.3: each variant is a pure function of the birth
geometry; iterative variants may fail to converge within the bounded
iteration count, modelled as the solver returning `none`. On `none` the
calculator deterministically falls back to the Equal House system,
recording `houseSystemUsed = equal` and `fallbackOccurred = true`; the
per-variant geometric formulas are a parameter (`solver`) since they are
not part of the provided sources. -/
def computeHouses (solver : HouseSystem → BirthGeometry → Option (List ℚ))
    (sys : HouseSystem) (g : BirthGeometry) (asc mc : ℚ) : HouseCalcResult :=
  match solver sys g with
  | some cs =>
      { cusps := cs, ascendant := asc, midheaven := mc
        houseSystemUsed := sys, fallbackOccurred := false }
  | none =>
      { cusps := equalHouseCusps asc, ascendant := asc, midheaven := mc
        houseSystemUsed := HouseSystem.equalHouse, fallbackOccurred := true }

/- ===================== HouseAssigner ===================== -/

/-- Modelled from the spec: the HouseAssigner implementation is not in
src/. Spec section 4.4: a body belongs to house n iff its longitude lies in
the half-open arc from cusp n to the next cusp, moving in the direction of
increasing longitude modulo 360 — i.e. the forward distance from cusp n to
the longitude is smaller than the forward distance from cusp n to the next
cusp. -/
def inHouseArc (c1 c2 L : ℚ) : Bool := decide (norm360 (L - c1) < norm360 (c2 - c1))

/-- Position of cusp i measured forward around the circle from cusp 1
(index 0); the spec's cusp-order invariant (section 3) is strict
monotonicity of these relative positions. -/
def relPos (cusps : Fin 12 → ℚ) (i : Fin 12) : ℚ := norm360 (cusps i - cusps 0)

/-- Modelled from the spec: the house-assignment function — the first house
whose arc contains the longitude (house n is index n-1). -/
def houseOf (cusps : Fin 12 → ℚ) (L : ℚ) : Option (Fin 12) :=
  (List.finRange 12).find? (fun n => inHouseArc (cusps n) (cusps (n + 1)) L)

/-- Upper bound of house n's arc in relative coordinates (360 for the arc
that wraps past cusp 1). -/
def nextRel (cusps : Fin 12 → ℚ) (n : Fin 12) : ℚ :=
  if n.val = 11 then 360 else relPos cusps (n + 1)

/-- Concrete equal-style cusp wheel used to instantiate the house
assignment theorem. -/
def demoCusps : Fin 12 → ℚ :=
  ![0, 30, 60, 90, 120, 150, 180, 210, 240, 270, 300, 330]

/- ===================== AspectDetector ===================== -/

/-- Aspect-type configuration entry: name, exact angle, maximum orb
(spec section 4.5). -/
structure AspectType where
  name : String
  exactAngle : ℚ
  maxOrb : ℚ
deriving Repr, DecidableEq

/-- Modelled from the spec: the AspectDetector implementation is not in
src/. Spec section 4.5: `separation = min(|lonA-lonB|, 360-|lonA-lonB|)`. -/
def separationOf (lonA lonB : ℚ) : ℚ := min |lonA - lonB| (360 - |lonA - lonB|)

/-- Modelled from the spec: an aspect type matches when
`|separation - exactAngle| ≤ maxOrb`. -/
def aspectMatches (t : AspectType) (sep : ℚ) : Bool :=
  decide (|sep - t.exactAngle| ≤ t.maxOrb)

/-- Modelled from the spec: among all matching aspect types, only the one
with the smaller `|orb|` is retained (spec section 4.5); the signed orb is
`separation - exactAngle`. Earlier-listed types win exact ties. -/
def bestAspect : List AspectType → ℚ → Option (AspectType × ℚ)
  | [], _ => none
  | t :: ts, sep =>
      let rest := bestAspect ts sep
      if aspectMatches t sep then
        match rest with
        | none => some (t, sep - t.exactAngle)
        | some (tb, ob) =>
            if |sep - t.exactAngle| ≤ |ob| then some (t, sep - t.exactAngle)
            else some (tb, ob)
      else rest

/-- Emitted aspect record (the `Aspect` interface,
src/frontend/src/types/index.ts lines 114-121; the applying flag needs the
bodies' speeds and is not involved in the claims settled here). -/
structure AspectRecord where
  planet1 : String
  planet2 : String
  aspectType : String
  orb : ℚ
deriving Repr, DecidableEq

/-- Modelled from the spec: the per-pair detector — at most one record per
unordered pair by construction. -/
def detectPairAspect (types : List AspectType) (a : String × ℚ) (b : String × ℚ) :
    Option AspectRecord :=
  match bestAspect types (separationOf a.2 b.2) with
  | none => none
  | some (t, orb) => some ⟨a.1, b.1, t.name, orb⟩

/-- Every unordered pair of list elements, each taken once. -/
def allPairs {α : Type} : List α → List (α × α)
  | [] => []
  | x :: xs => xs.map (fun y => (x, y)) ++ allPairs xs

/-- Modelled from the spec: the detector over every unordered pair of
bodies (name, longitude). -/
def detectAspects (types : List AspectType) (bodies : List (String × ℚ)) :
    List AspectRecord :=
  (allPairs bodies).filterMap (fun p => detectPairAspect types p.1 p.2)

/-- Whether a record concerns the unordered body pair {a, b}. -/
def matchesUnorderedPair (a b : String) (r : AspectRecord) : Bool :=
  decide ((r.planet1 = a ∧ r.planet2 = b) ∨ (r.planet1 = b ∧ r.planet2 = a))

/-- Concrete aspect table used to instantiate the detector theorem. -/
def demoAspectTypes : List AspectType :=
  [⟨"conjunction", 0, 8⟩, ⟨"square", 90, 7⟩, ⟨"opposition", 180, 8⟩]

/-- Concrete body list used to instantiate the detector theorem. -/
def demoBodies : List (String × ℚ) :=
  [("Sun", 10), ("Moon", 100), ("Mars", 200)]

/- ===================== EphemerisProvider and calculateChart ===================== -/

/-- A UTC instant, resolved by the caller before entering the engine
(spec section 3): calendar year plus an opaque within-year time. -/
structure Instant where
  year : ℤ
  timeOfYear : ℚ
deriving Repr, DecidableEq

/-- Error taxonomy of spec section 7 (the convergence fallback is metadata,
not an error). -/
inductive DomainError where
  | invalidBirthInput
  | ephemerisRangeExceeded
  | incompleteChartError
  | computationTimeout
deriving Repr, DecidableEq

/-- Modelled from the spec: the consumed EphemerisProvider capability
(spec section 4.1) — a supported calendar range and a raw position
function. -/
structure EphemerisProvider where
  minYear : ℤ
  maxYear : ℤ
  rawPos : Instant → String → RawPosition

/-- Modelled from the spec: `positionAt(instant, bodyId)` fails with
`EphemerisRangeExceeded` if the instant falls outside the provider's
supported calendar range (spec section 4.1). -/
def positionAt (p : EphemerisProvider) (t : Instant) (body : String) :
    Except DomainError RawPosition :=
  if t.year < p.minYear ∨ p.maxYear < t.year then
    Except.error DomainError.ephemerisRangeExceeded
  else Except.ok (p.rawPos t body)

/-- Modelled from the spec: resolving every requested body through the
provider; the first provider error is terminal. -/
def resolveBodies (p : EphemerisProvider) (t : Instant) :
    List String → Except DomainError (List (String × RawPosition))
  | [] => Except.ok []
  | b :: bs =>
      match positionAt p t b with
      | Except.error e => Except.error e
      | Except.ok pos =>
          match resolveBodies p t bs with
          | Except.error e => Except.error e
          | Except.ok rest => Except.ok ((b, pos) :: rest)

/-- Birth input (spec section 3): resolved UTC instant plus coordinates. -/
structure BirthInput where
  instant : Instant
  latitude : ℚ
  longitude : ℚ
deriving Repr, DecidableEq

/-- Calculation configuration (spec section 6): house system, requested
bodies, aspect-type table. -/
structure ChartConfig where
  houseSystem : HouseSystem
  bodies : List String
  aspectTypes : List AspectType

/-- Immutable calculation result (spec section 3, `NatalChart` in
src/frontend/src/types/index.ts lines 135-161). -/
structure ChartResult where
  bodies : List (String × RawPosition × NormalizedPosition)
  houses : HouseCalcResult
  aspects : List AspectRecord
deriving Repr, DecidableEq

/-- Modelled from the spec: the single synchronous
`calculateChart(birthInput, config)` contract (spec section 6), with the
ephemeris provider, the per-variant house solver and the angle computation
injected as capabilities (spec section 9). Out-of-range coordinates fail
with `InvalidBirthInput`; a provider range error is terminal; the
assembler's completeness check fails fast with `IncompleteChartError`
(spec section 4.6); otherwise the immutable aggregate is returned. -/
def calculateChart (p : EphemerisProvider)
    (solver : HouseSystem → BirthGeometry → Option (List ℚ))
    (angles : BirthGeometry → ℚ × ℚ)
    (input : BirthInput) (cfg : ChartConfig) : Except DomainError ChartResult :=
  if 90 < |input.latitude| ∨ 180 < |input.longitude| then
    Except.error DomainError.invalidBirthInput
  else
    match resolveBodies p input.instant cfg.bodies with
    | Except.error e => Except.error e
    | Except.ok raws =>
        let g : BirthGeometry := ⟨input.instant.timeOfYear, input.latitude, 2344/100⟩
        let am := angles g
        let houses := computeHouses solver cfg.houseSystem g am.1 am.2
        if houses.cusps.length ≠ 12 then Except.error DomainError.incompleteChartError
        else
          Except.ok
            { bodies := raws.map (fun r => (r.1, r.2, normalizePosition r.2))
              houses := houses
              aspects := detectAspects cfg.aspectTypes
                (raws.map (fun r => (r.1, r.2.longitude))) }

/-- Concrete provider used to instantiate the range-error theorem. -/
def demoProvider : EphemerisProvider :=
  ⟨1800, 2400, fun _ _ => ⟨0, 0, 1, 0⟩⟩

/- ===================== ChartAssembler: SolarSet ===================== -/

/-- A placed body as the assembler sees it (name, sign label, in-sign
degree, house number). -/
structure BodyPlacement where
  name : String
  sign : String
  degree : ℚ
  house : ℕ
deriving Repr, DecidableEq

/-- A house record as the assembler sees it (number, sign on the cusp). -/
structure HouseRec where
  number : ℕ
  sign : String
deriving Repr, DecidableEq

/-- The SolarSet projection (src/frontend/src/types/index.ts lines
123-133): sun sign, sun house, sun degree, fifth-house sign, hard aspects
involving the Sun. -/
structure SolarSet where
  sunSign : String
  sunHouse : ℕ
  sunDegree : ℚ
  fifthHouseSign : String
  hardAspects : List AspectRecord
deriving Repr, DecidableEq

/-- Hard aspects are squares and oppositions (spec section 3). -/
def isHardAspect (r : AspectRecord) : Bool :=
  r.aspectType == "square" || r.aspectType == "opposition"

/-- Whether an aspect record involves the Sun. -/
def involvesSun (r : AspectRecord) : Bool :=
  r.planet1 == "Sun" || r.planet2 == "Sun"

/-- Modelled from the spec: the ChartAssembler's derived SolarSet
projection (spec sections 3 and 4.6) — sun sign/house/degree, the sign on
the fifth house cusp, and the hard aspects involving the Sun. `none` when
the Sun or the fifth house is absent (the assembler fails fast earlier in
that case). -/
def computeSolarSet (bodies : List BodyPlacement) (houses : List HouseRec)
    (aspects : List AspectRecord) : Option SolarSet :=
  match bodies.find? (fun b => b.name == "Sun"), houses.find? (fun h => h.number == 5) with
  | some sun, some fifth =>
      some { sunSign := sun.sign
             sunHouse := sun.house
             sunDegree := sun.degree
             fifthHouseSign := fifth.sign
             hardAspects := aspects.filter (fun r => isHardAspect r && involvesSun r) }
  | _, _ => none

/-- Concrete chart fragments used to instantiate the SolarSet theorem. -/
def demoPlacements : List BodyPlacement :=
  [⟨"Sun", "Aries", 25, 10⟩, ⟨"Moon", "Leo", 3, 2⟩]

/-- Concrete house list used to instantiate the SolarSet theorem. -/
def demoHouses : List HouseRec :=
  [⟨1, "Cancer"⟩, ⟨2, "Leo"⟩, ⟨3, "Virgo"⟩, ⟨4, "Libra"⟩, ⟨5, "Scorpio"⟩,
   ⟨6, "Sagittarius"⟩, ⟨7, "Capricorn"⟩, ⟨8, "Aquarius"⟩, ⟨9, "Pisces"⟩,
   ⟨10, "Aries"⟩, ⟨11, "Taurus"⟩, ⟨12, "Gemini"⟩]

/-- Concrete aspect list used to instantiate the SolarSet theorem. -/
def demoAspects : List AspectRecord :=
  [⟨"Sun", "Moon", "square", 2⟩, ⟨"Moon", "Mars", "square", 1⟩,
   ⟨"Sun", "Mars", "trine", 0⟩, ⟨"Venus", "Sun", "opposition", 3⟩]

/- ===================== Helper lemmas: circle arithmetic ===================== -/

theorem norm360_nonneg (x : ℚ) : 0 ≤ norm360 x := by
  have h := Int.floor_le (x / 360)
  unfold norm360
  nlinarith

theorem norm360_lt (x : ℚ) : norm360 x < 360 := by
  have h := Int.lt_floor_add_one (x / 360)
  unfold norm360
  nlinarith

theorem norm360_eq_self {x : ℚ} (h0 : 0 ≤ x) (h1 : x < 360) : norm360 x = x := by
  have hf : ⌊x / 360⌋ = 0 := by
    rw [Int.floor_eq_zero_iff]
    constructor
    · positivity
    · rw [div_lt_one (by norm_num : (0:ℚ) < 360)]; simpa using h1
  simp [norm360, hf]

theorem norm360_add_int_mul (x : ℚ) (k : ℤ) : norm360 (x + 360 * k) = norm360 x := by
  unfold norm360
  have hf : ⌊(x + 360 * k) / 360⌋ = ⌊x / 360⌋ + k := by
    rw [show (x + 360 * (k:ℚ)) / 360 = x / 360 + (k:ℚ) by ring]
    exact Int.floor_add_int _ _
  rw [hf]
  push_cast
  ring

theorem norm360_sub_norm360 (a b : ℚ) :
    norm360 (norm360 a - norm360 b) = norm360 (a - b) := by
  have ha : norm360 a = a - 360 * (⌊a / 360⌋ : ℚ) := rfl
  have hb : norm360 b = b - 360 * (⌊b / 360⌋ : ℚ) := rfl
  rw [ha, hb,
    show a - 360 * (⌊a / 360⌋ : ℚ) - (b - 360 * (⌊b / 360⌋ : ℚ))
      = (a - b) + 360 * ((⌊b / 360⌋ - ⌊a / 360⌋ : ℤ) : ℚ) by push_cast; ring]
  exact norm360_add_int_mul _ _

theorem norm360_add_360 (x : ℚ) : norm360 (x + 360) = norm360 x := by
  have h := norm360_add_int_mul x 1
  rw [show x + 360 * ((1:ℤ):ℚ) = x + 360 by push_cast; ring] at h
  exact h

/- ===================== Theorems: C10 ===================== -/

/-- C10 counterexample: the claim "the set of codes in SUPPORTED_LANGUAGES
equals the set of values of SupportedLanguage" is false: the i18n
configuration's codes contain "pt", which is not a value of the shared
types union (and conversely "pt-br" is only in the union). -/
theorem C10_sets_differ :
    ¬ (∀ s : String, s ∈ SUPPORTED_LANGUAGES ↔ s ∈ sharedTypesSupportedLanguage) := by
  intro h
  have h1 : "pt" ∈ SUPPORTED_LANGUAGES := by decide
  have h2 : "pt" ∈ sharedTypesSupportedLanguage := (h "pt").mp h1
  revert h2
  decide

/-- C10 (amended): the two language-code sets agree on every code other
than the Portuguese one, where the i18n configuration declares "pt" while
the shared types union declares "pt-br"; the sets are therefore not equal. -/
theorem C10_language_sets :
    SUPPORTED_LANGUAGES.filter (fun s => s != "pt")
      = sharedTypesSupportedLanguage.filter (fun s => s != "pt-br")
    ∧ "pt" ∈ SUPPORTED_LANGUAGES ∧ "pt" ∉ sharedTypesSupportedLanguage
    ∧ "pt-br" ∈ sharedTypesSupportedLanguage ∧ "pt-br" ∉ SUPPORTED_LANGUAGES := by
  refine ⟨by decide, by decide, by decide, by decide, by decide⟩

/- ===================== Theorems: C9 ===================== -/

/-- C9: after every execution of the store's logout — whether the logout
API request succeeds or fails — both stored tokens are removed and the auth
store holds `user = null` and `isAuthenticated = false`. -/
theorem C9_logout_clears_auth (apiFails : Bool) (st : AuthState) (sto : TokenStorage) :
    (useAuthStoreLogout apiFails st sto).2.accessToken = none
    ∧ (useAuthStoreLogout apiFails st sto).2.refreshToken = none
    ∧ (useAuthStoreLogout apiFails st sto).1.user = none
    ∧ (useAuthStoreLogout apiFails st sto).1.isAuthenticated = false := by
  cases apiFails <;>
    simp [useAuthStoreLogout, authServiceLogout]

/- ===================== Theorems: C1 ===================== -/

/-- C1: for every body produced by the engine, `isRetrograde` is true iff
the longitudinal speed is strictly negative; a stationary body
(speed = 0) is not retrograde. -/
theorem C1_retrograde_iff_negative_speed (p : RawPosition) :
    ((normalizePosition p).isRetrograde = true ↔ p.speed < 0)
    ∧ (p.speed = 0 → (normalizePosition p).isRetrograde = false) := by
  constructor
  · simp [normalizePosition]
  · intro h
    simp [normalizePosition, h]

/-- C1 witness: a concrete stationary body (speed exactly 0) has
`isRetrograde = false`. -/
theorem C1_retrograde_witness :
    (normalizePosition ⟨10, 0, 1, 0⟩).isRetrograde = false :=
  (C1_retrograde_iff_negative_speed ⟨10, 0, 1, 0⟩).2 rfl

/- ===================== Theorems: C2 ===================== -/

/-- Helper: the degree/minute/second decomposition with round-half-up at the
second boundary recombines (together with the 30-degree sign offset) to the
original longitude within half an arcsecond, hence within 1/3600 of a
degree. -/
theorem dms_recombination (L : ℚ) (d m s : ℤ) (hdms : dmsOf L = (d, m, s)) :
    |(30 * (⌊L / 30⌋ : ℚ) + (d : ℚ) + (m : ℚ) / 60 + (s : ℚ) / 3600) - L| ≤ 1 / 3600 := by
  simp only [dmsOf, Prod.mk.injEq] at hdms
  obtain ⟨hd, hm, hs⟩ := hdms
  set q : ℤ := ⌊L / 30⌋ with hq
  set x : ℚ := L - 30 * q with hx
  set mf : ℚ := (x - ⌊x⌋) * 60 with hmf
  set sf : ℚ := (mf - ⌊mf⌋) * 60 with hsf
  subst hd hm hs
  have h1 : ((⌊sf + 1/2⌋ : ℤ) : ℚ) ≤ sf + 1/2 := Int.floor_le _
  have h2 : sf + 1/2 - 1 < ((⌊sf + 1/2⌋ : ℤ) : ℚ) := Int.sub_one_lt_floor _
  have e1 : mf = (x - ⌊x⌋) * 60 := hmf
  have e2 : sf = (mf - ⌊mf⌋) * 60 := hsf
  have ex : x = L - 30 * q := hx
  have key : (30 * (q : ℚ) + (⌊x⌋ : ℚ) + (⌊mf⌋ : ℚ) / 60 + ((⌊sf + 1/2⌋ : ℤ) : ℚ) / 3600) - L
      = (((⌊sf + 1/2⌋ : ℤ) : ℚ) - sf) / 3600 := by
    rw [e2, e1, ex]; ring
  rw [key, abs_le]
  constructor <;> linarith

/-- C2: for every longitude L in [0,360), the normalizer's sign index is
`floor(L/30) mod 12`, lies in 0..11, and the degree/minute/second
decomposition of L mod 30 (round-half-up at the second boundary)
recombines — with the sign's 30-degree offset — to L within 1/3600 of a
degree. -/
theorem C2_normalizer_decomposition (L : ℚ) (h0 : 0 ≤ L) (h1 : L < 360) :
    signIndexOf L = ⌊L / 30⌋ % 12
    ∧ 0 ≤ signIndexOf L ∧ signIndexOf L < 12
    ∧ |(30 * (signIndexOf L : ℚ) + ((dmsOf L).1 : ℚ) + ((dmsOf L).2.1 : ℚ) / 60
        + ((dmsOf L).2.2 : ℚ) / 3600) - L| ≤ 1 / 3600 := by
  have hq0 : (0:ℤ) ≤ ⌊L / 30⌋ := Int.floor_nonneg.mpr (by positivity)
  have hq12 : ⌊L / 30⌋ < 12 := Int.floor_lt.mpr (by push_cast; linarith)
  have hsign : signIndexOf L = ⌊L / 30⌋ := Int.emod_eq_of_lt hq0 hq12
  refine ⟨rfl, ?_, ?_, ?_⟩
  · rw [hsign]; exact hq0
  · rw [hsign]; exact hq12
  · rw [hsign]
    exact dms_recombination L (dmsOf L).1 (dmsOf L).2.1 (dmsOf L).2.2 rfl

/-- C2 witness: the normalizer property instantiated at the concrete
longitude 100. -/
theorem C2_normalizer_witness :
    0 ≤ (100:ℚ) ∧ (100:ℚ) < 360 ∧
    (signIndexOf 100 = ⌊(100:ℚ) / 30⌋ % 12
    ∧ 0 ≤ signIndexOf 100 ∧ signIndexOf 100 < 12
    ∧ |(30 * (signIndexOf 100 : ℚ) + ((dmsOf 100).1 : ℚ) + ((dmsOf 100).2.1 : ℚ) / 60
        + ((dmsOf 100).2.2 : ℚ) / 3600) - 100| ≤ 1 / 3600) :=
  ⟨by decide, by decide, C2_normalizer_decomposition 100 (by decide) (by decide)⟩

/- ===================== Theorems: C3 ===================== -/

/-- C3: whenever an iterative house-system run fails to converge (the
solver yields `none`), the calculator falls back to the Equal House system:
the result records `houseSystemUsed = equal` together with
`fallbackOccurred = true`, and all 12 house cusps are still present. -/
theorem C3_convergence_fallback
    (solver : HouseSystem → BirthGeometry → Option (List ℚ))
    (sys : HouseSystem) (g : BirthGeometry) (asc mc : ℚ)
    (hfail : solver sys g = none) :
    (computeHouses solver sys g asc mc).houseSystemUsed = HouseSystem.equalHouse
    ∧ (computeHouses solver sys g asc mc).fallbackOccurred = true
    ∧ (computeHouses solver sys g asc mc).cusps.length = 12 := by
  unfold computeHouses
  rw [hfail]
  refine ⟨rfl, rfl, ?_⟩
  unfold equalHouseCusps
  rw [List.length_map, List.length_range]

/-- C3 witness: a run whose Placidus solver never converges (always `none`)
at latitude 80 falls back to Equal House with the fallback flag set and 12
cusps. -/
theorem C3_convergence_fallback_witness :
    (computeHouses (fun _ _ => none) HouseSystem.placidus ⟨0, 80, 47/2⟩ 100 10).houseSystemUsed
        = HouseSystem.equalHouse
    ∧ (computeHouses (fun _ _ => none) HouseSystem.placidus ⟨0, 80, 47/2⟩ 100 10).fallbackOccurred
        = true
    ∧ (computeHouses (fun _ _ => none) HouseSystem.placidus ⟨0, 80, 47/2⟩ 100 10).cusps.length = 12 :=
  C3_convergence_fallback (fun _ _ => none) HouseSystem.placidus ⟨0, 80, 47/2⟩ 100 10 rfl

/- ===================== Theorems: C4 ===================== -/

/-- Helper: membership in a non-wrapping arc is an interval condition on
relative positions. -/
theorem arc_mem_iff_lt {p v x : ℚ} (hp0 : 0 ≤ p) (hv : v < 360) (hx0 : 0 ≤ x) (hx1 : x < 360)
    (hpv : p < v) : (norm360 (x - p) < norm360 (v - p) ↔ p ≤ x ∧ x < v) := by
  have hvp : norm360 (v - p) = v - p := norm360_eq_self (by linarith) (by linarith)
  rcases le_or_lt p x with h | h
  · have hxp : norm360 (x - p) = x - p := norm360_eq_self (by linarith) (by linarith)
    rw [hvp, hxp]
    constructor
    · intro hlt; exact ⟨h, by linarith⟩
    · intro hc; linarith [hc.2]
  · have hxp : norm360 (x - p) = x - p + 360 := by
      rw [← norm360_add_360 (x - p)]
      exact norm360_eq_self (by linarith) (by linarith)
    rw [hvp, hxp]
    constructor
    · intro hlt; exact absurd hlt (by linarith)
    · intro hc; exact absurd hc.1 (by linarith)

/-- Helper: membership in the arc that wraps past the starting cusp. -/
theorem arc_mem_wrap_iff {p x : ℚ} (hp0 : 0 < p) (hp1 : p < 360) (hx0 : 0 ≤ x) (hx1 : x < 360) :
    (norm360 (x - p) < norm360 (0 - p) ↔ p ≤ x) := by
  have hvp : norm360 (0 - p) = 360 - p := by
    rw [← norm360_add_360 (0 - p), show (0:ℚ) - p + 360 = 360 - p by ring]
    exact norm360_eq_self (by linarith) (by linarith)
  rcases le_or_lt p x with h | h
  · have hxp : norm360 (x - p) = x - p := norm360_eq_self (by linarith) (by linarith)
    rw [hvp, hxp]
    constructor
    · intro _; exact h
    · intro _; linarith
  · have hxp : norm360 (x - p) = x - p + 360 := by
      rw [← norm360_add_360 (x - p)]
      exact norm360_eq_self (by linarith) (by linarith)
    rw [hvp, hxp]
    constructor
    · intro hlt; exact absurd hlt (by linarith)
    · intro hc; exact absurd hc (by linarith)

/-- Helper: the arc test can be carried out entirely in coordinates
relative to cusp 1. -/
theorem inHouseArc_rel (cusps : Fin 12 → ℚ) (i j : Fin 12) (L : ℚ) :
    inHouseArc (cusps i) (cusps j) L = true
      ↔ norm360 (norm360 (L - cusps 0) - relPos cusps i)
          < norm360 (relPos cusps j - relPos cusps i) := by
  have h1 : norm360 (norm360 (L - cusps 0) - relPos cusps i) = norm360 (L - cusps i) := by
    unfold relPos
    rw [norm360_sub_norm360]
    congr 1
    ring
  have h2 : norm360 (relPos cusps j - relPos cusps i) = norm360 (cusps j - cusps i) := by
    unfold relPos
    rw [norm360_sub_norm360]
    congr 1
    ring
  rw [h1, h2]
  simp [inHouseArc]

theorem relPos_zero (cusps : Fin 12 → ℚ) : relPos cusps 0 = 0 := by
  unfold relPos
  rw [sub_self]
  exact norm360_eq_self le_rfl (by norm_num)

/-- Helper: under the spec's cusp-order invariant, membership in house n's
arc is exactly the half-open interval `[relPos n, nextRel n)` of relative
positions. -/
theorem inHouseArc_iff_interval (cusps : Fin 12 → ℚ)
    (hmono : ∀ i j : Fin 12, i < j → relPos cusps i < relPos cusps j)
    (L : ℚ) (n : Fin 12) :
    inHouseArc (cusps n) (cusps (n + 1)) L = true
      ↔ (relPos cusps n ≤ norm360 (L - cusps 0)
          ∧ norm360 (L - cusps 0) < nextRel cusps n) := by
  set x := norm360 (L - cusps 0) with hx
  have hx0 : 0 ≤ x := norm360_nonneg _
  have hx1 : x < 360 := norm360_lt _
  have hrn0 : 0 ≤ relPos cusps n := norm360_nonneg _
  rcases Nat.lt_or_ge n.val 11 with hn | hn
  · have hlast : n < Fin.last 11 := by
      rw [Fin.lt_def]
      simpa using hn
    have hval : ((n + 1 : Fin 12) : ℕ) = n.val + 1 := Fin.val_add_one_of_lt hlast
    have hlt : n < n + 1 := by
      rw [Fin.lt_def, hval]
      omega
    have hmn : relPos cusps n < relPos cusps (n + 1) := hmono _ _ hlt
    have hnext : nextRel cusps n = relPos cusps (n + 1) := by
      unfold nextRel
      rw [if_neg (by omega)]
    rw [inHouseArc_rel, hnext]
    exact arc_mem_iff_lt hrn0 (norm360_lt _) hx0 hx1 hmn
  · have hbound := n.isLt
    have hn11 : n = (11 : Fin 12) := by
      apply Fin.ext
      show n.val = (11 : Fin 12).val
      have : (11 : Fin 12).val = 11 := rfl
      omega
    subst hn11
    have hnext : nextRel cusps 11 = 360 := rfl
    have hsucc : (11 : Fin 12) + 1 = 0 := by decide
    have hpos : 0 < relPos cusps 11 := by
      have h0n : (0 : Fin 12) < 11 := by decide
      have := hmono 0 11 h0n
      rw [relPos_zero] at this
      exact this
    rw [inHouseArc_rel, hsucc, hnext, relPos_zero]
    rw [arc_mem_wrap_iff hpos (norm360_lt _) hx0 hx1]
    constructor
    · intro h; exact ⟨h, hx1⟩
    · intro h; exact h.1

/-- Helper: two distinct houses cannot both contain a longitude. -/
theorem arc_disjoint_aux (cusps : Fin 12 → ℚ)
    (hmono : ∀ i j : Fin 12, i < j → relPos cusps i < relPos cusps j)
    {x : ℚ} {m n : Fin 12} (hmn : m < n)
    (h2 : x < nextRel cusps m) (h3 : relPos cusps n ≤ x) : False := by
  have hmv := Fin.lt_def.mp hmn
  have hnv := n.isLt
  have hm11 : m.val < 11 := by omega
  have hlast : m < Fin.last 11 := by
    rw [Fin.lt_def]
    simpa using hm11
  have hval : ((m + 1 : Fin 12) : ℕ) = m.val + 1 := Fin.val_add_one_of_lt hlast
  have hnext : nextRel cusps m = relPos cusps (m + 1) := by
    unfold nextRel
    rw [if_neg (by omega)]
  have hle : m + 1 ≤ n := by
    rw [Fin.le_def, hval]
    omega
  have h4 : relPos cusps (m + 1) ≤ relPos cusps n := by
    rcases eq_or_lt_of_le hle with h | h
    · rw [h]
    · exact le_of_lt (hmono _ _ h)
  rw [hnext] at h2
  linarith

/-- Helper: uniqueness of the containing house. -/
theorem arc_unique (cusps : Fin 12 → ℚ)
    (hmono : ∀ i j : Fin 12, i < j → relPos cusps i < relPos cusps j)
    (L : ℚ) {m n : Fin 12}
    (hm : inHouseArc (cusps m) (cusps (m + 1)) L = true)
    (hn : inHouseArc (cusps n) (cusps (n + 1)) L = true) : m = n := by
  rw [inHouseArc_iff_interval cusps hmono] at hm hn
  rcases lt_trichotomy m n with h | h | h
  · exact (arc_disjoint_aux cusps hmono h hm.2 hn.1).elim
  · exact h
  · exact (arc_disjoint_aux cusps hmono h hn.2 hm.1).elim

/-- Helper: existence of a containing house (no gaps). -/
theorem arc_exists (cusps : Fin 12 → ℚ)
    (hmono : ∀ i j : Fin 12, i < j → relPos cusps i < relPos cusps j)
    (L : ℚ) : ∃ n : Fin 12, inHouseArc (cusps n) (cusps (n + 1)) L = true := by
  set x := norm360 (L - cusps 0) with hxdef
  have hx0 : 0 ≤ x := norm360_nonneg _
  have hx1 : x < 360 := norm360_lt _
  have h0S : (0 : Fin 12) ∈ Finset.filter (fun i : Fin 12 => relPos cusps i ≤ x) Finset.univ := by
    rw [Finset.mem_filter]
    exact ⟨Finset.mem_univ _, by rw [relPos_zero]; exact hx0⟩
  set n := (Finset.filter (fun i : Fin 12 => relPos cusps i ≤ x) Finset.univ).max' ⟨0, h0S⟩
    with hndef
  have hn1 : relPos cusps n ≤ x := by
    have := Finset.max'_mem
      (Finset.filter (fun i : Fin 12 => relPos cusps i ≤ x) Finset.univ) ⟨0, h0S⟩
    rw [Finset.mem_filter] at this
    exact this.2
  have hn2 : x < nextRel cusps n := by
    by_cases hv : n.val = 11
    · unfold nextRel
      rw [if_pos hv]
      exact hx1
    · have hlast : n < Fin.last 11 := by
        rw [Fin.lt_def]
        have := n.isLt
        simp only [Fin.val_last]
        omega
      have hval : ((n + 1 : Fin 12) : ℕ) = n.val + 1 := Fin.val_add_one_of_lt hlast
      have hlt : n < n + 1 := by
        rw [Fin.lt_def, hval]
        omega
      by_contra hcon
      push_neg at hcon
      have hmem : (n + 1) ∈ Finset.filter (fun i : Fin 12 => relPos cusps i ≤ x) Finset.univ := by
        rw [Finset.mem_filter]
        have : nextRel cusps n = relPos cusps (n + 1) := by
          unfold nextRel
          rw [if_neg hv]
        rw [this] at hcon
        exact ⟨Finset.mem_univ _, hcon⟩
      have := Finset.le_max'
        (Finset.filter (fun i : Fin 12 => relPos cusps i ≤ x) Finset.univ) (n + 1) hmem
      rw [← hndef] at this
      exact absurd hlt (not_lt.mpr this)
  exact ⟨n, (inHouseArc_iff_interval cusps hmono L n).mpr ⟨hn1, hn2⟩⟩

/-- Helper: a cusp's own longitude lies in the arc of the house that starts
at that cusp. -/
theorem cusp_in_own_arc (cusps : Fin 12 → ℚ)
    (hmono : ∀ i j : Fin 12, i < j → relPos cusps i < relPos cusps j)
    (n : Fin 12) : inHouseArc (cusps n) (cusps (n + 1)) (cusps n) = true := by
  rw [inHouseArc_iff_interval cusps hmono]
  have hxn : norm360 (cusps n - cusps 0) = relPos cusps n := rfl
  rw [hxn]
  refine ⟨le_rfl, ?_⟩
  by_cases hv : n.val = 11
  · unfold nextRel
    rw [if_pos hv]
    exact norm360_lt _
  · have hlast : n < Fin.last 11 := by
      rw [Fin.lt_def]
      have := n.isLt
      simp only [Fin.val_last]
      omega
    have hval : ((n + 1 : Fin 12) : ℕ) = n.val + 1 := Fin.val_add_one_of_lt hlast
    have hlt : n < n + 1 := by
      rw [Fin.lt_def, hval]
      omega
    unfold nextRel
    rw [if_neg hv]
    exact hmono _ _ hlt

/-- C4: for every set of 12 house cusps satisfying the spec's cusp-order
invariant (strictly increasing positions around the circle from cusp 1)
and every longitude, exactly one house arc contains the longitude (the 12
half-open arcs partition the circle with no gaps or overlaps); a longitude
exactly equal to a cusp lies in the arc of the house that starts at that
cusp, and the assignment function maps it to that house. -/
theorem C4_house_assignment_partition (cusps : Fin 12 → ℚ)
    (hmono : ∀ i j : Fin 12, i < j → relPos cusps i < relPos cusps j) (L : ℚ) :
    (∃! n : Fin 12, inHouseArc (cusps n) (cusps (n + 1)) L = true)
    ∧ (∀ n : Fin 12, inHouseArc (cusps n) (cusps (n + 1)) (cusps n) = true)
    ∧ (∀ n : Fin 12, houseOf cusps (cusps n) = some n) := by
  refine ⟨?_, fun n => cusp_in_own_arc cusps hmono n, ?_⟩
  · obtain ⟨n, hn⟩ := arc_exists cusps hmono L
    exact ⟨n, hn, fun m hm => arc_unique cusps hmono L hm hn⟩
  · intro n
    unfold houseOf
    rcases hfind : (List.finRange 12).find?
        (fun m => inHouseArc (cusps m) (cusps (m + 1)) (cusps n)) with _ | m
    · exfalso
      rw [List.find?_eq_none] at hfind
      exact hfind n (List.mem_finRange n) (cusp_in_own_arc cusps hmono n)
    · have hm := List.find?_some hfind
      rw [arc_unique cusps hmono (cusps n) hm (cusp_in_own_arc cusps hmono n)]

/-- Helper: cusps given in increasing order inside [0,360) satisfy the
relative-position order invariant. -/
theorem relPos_mono_of_inorder (cusps : Fin 12 → ℚ) (h0 : 0 ≤ cusps 0)
    (h360 : ∀ i : Fin 12, cusps i < 360)
    (hsort : ∀ i j : Fin 12, i < j → cusps i < cusps j) :
    ∀ i j : Fin 12, i < j → relPos cusps i < relPos cusps j := by
  have hge : ∀ i : Fin 12, cusps 0 ≤ cusps i := by
    intro i
    rcases eq_or_ne i 0 with h | h
    · rw [h]
    · exact le_of_lt (hsort 0 i (Fin.pos_of_ne_zero h))
  have hval : ∀ i : Fin 12, relPos cusps i = cusps i - cusps 0 := by
    intro i
    unfold relPos
    exact norm360_eq_self (by linarith [hge i]) (by linarith [h360 i])
  intro i j hij
  rw [hval i, hval j]
  have := hsort i j hij
  linarith

/-- C4 witness: the partition property instantiated on a concrete ordered
cusp wheel and the longitude 45, which the assigner places in house 2. -/
theorem C4_house_assignment_witness :
    (∀ i j : Fin 12, i < j → relPos demoCusps i < relPos demoCusps j)
    ∧ ((∃! n : Fin 12, inHouseArc (demoCusps n) (demoCusps (n + 1)) 45 = true)
       ∧ (∀ n : Fin 12, inHouseArc (demoCusps n) (demoCusps (n + 1)) (demoCusps n) = true)
       ∧ (∀ n : Fin 12, houseOf demoCusps (demoCusps n) = some n)) :=
  have hm : ∀ i j : Fin 12, i < j → relPos demoCusps i < relPos demoCusps j :=
    relPos_mono_of_inorder demoCusps (by decide) (by decide) (by decide)
  ⟨hm, C4_house_assignment_partition demoCusps hm 45⟩

/- ===================== Theorems: C5 ===================== -/

/-- Helper: the angular separation of two longitudes in [0,360) lies in
[0,180]. -/
theorem separationOf_bounds {lonA lonB : ℚ} (ha0 : 0 ≤ lonA) (ha1 : lonA < 360)
    (hb0 : 0 ≤ lonB) (hb1 : lonB < 360) :
    0 ≤ separationOf lonA lonB ∧ separationOf lonA lonB ≤ 180 := by
  unfold separationOf
  have habs : |lonA - lonB| < 360 := by
    rw [abs_lt]
    constructor <;> linarith
  have habs0 : 0 ≤ |lonA - lonB| := abs_nonneg _
  constructor
  · exact le_min habs0 (by linarith)
  · rcases le_total |lonA - lonB| 180 with h | h
    · exact le_trans (min_le_left _ _) h
    · exact le_trans (min_le_right _ _) (by linarith)

theorem bestAspect_none_iff (ts : List AspectType) (sep : ℚ) :
    bestAspect ts sep = none ↔ ∀ u ∈ ts, aspectMatches u sep = false := by
  induction ts with
  | nil => simp [bestAspect]
  | cons t ts ih =>
      unfold bestAspect
      rcases hm : aspectMatches t sep with _ | _
      · simp only [Bool.false_eq_true, if_false]
        rw [ih]
        constructor
        · intro h u hu
          rcases List.mem_cons.mp hu with h1 | h1
          · rw [h1]; exact hm
          · exact h u h1
        · intro h u hu
          exact h u (List.mem_cons_of_mem _ hu)
      · simp only [if_true]
        constructor
        · intro h
          exfalso
          rcases hr : bestAspect ts sep with _ | p
          · rw [hr] at h; exact Option.noConfusion h
          · rw [hr] at h
            rcases p with ⟨tb, ob⟩
            by_cases hc : |sep - t.exactAngle| ≤ |ob| <;> simp [hc] at h
        · intro h
          exact absurd (h t (List.mem_cons_self _ _)) (by rw [hm]; exact fun hc => Bool.noConfusion hc)

theorem bestAspect_some_spec (ts : List AspectType) (sep : ℚ) (t : AspectType) (orb : ℚ)
    (h : bestAspect ts sep = some (t, orb)) :
    t ∈ ts ∧ aspectMatches t sep = true ∧ orb = sep - t.exactAngle
    ∧ ∀ u ∈ ts, aspectMatches u sep = true → |orb| ≤ |sep - u.exactAngle| := by
  induction ts generalizing t orb with
  | nil => exact Option.noConfusion h
  | cons t0 ts ih =>
      unfold bestAspect at h
      rcases hm : aspectMatches t0 sep with _ | _
      · rw [hm] at h
        simp only [Bool.false_eq_true, if_false] at h
        obtain ⟨hmem, hmt, horb, hmin⟩ := ih t orb h
        refine ⟨List.mem_cons_of_mem _ hmem, hmt, horb, ?_⟩
        intro u hu hmu
        rcases List.mem_cons.mp hu with h1 | h1
        · rw [h1] at hmu; rw [hmu] at hm; exact Bool.noConfusion hm
        · exact hmin u h1 hmu
      · rw [hm] at h
        simp only [if_true] at h
        rcases hr : bestAspect ts sep with _ | p
        · rw [hr] at h
          obtain ⟨ht, horb⟩ : t0 = t ∧ sep - t0.exactAngle = orb := by
            have := Option.some.inj h
            exact ⟨congrArg Prod.fst this, congrArg Prod.snd this⟩
          subst ht
          refine ⟨List.mem_cons_self _ _, hm, horb.symm, ?_⟩
          intro u hu hmu
          rcases List.mem_cons.mp hu with h1 | h1
          · rw [h1, ← horb]
          · exfalso
            have := (bestAspect_none_iff ts sep).mp hr u h1
            rw [hmu] at this
            exact Bool.noConfusion this
        · rcases p with ⟨tb, ob⟩
          rw [hr] at h
          dsimp only at h
          obtain ⟨htb, hmtb, hob, hminb⟩ := ih tb ob hr
          by_cases hc : |sep - t0.exactAngle| ≤ |ob|
          · rw [if_pos hc] at h
            obtain ⟨ht, horb⟩ : t0 = t ∧ sep - t0.exactAngle = orb := by
              have := Option.some.inj h
              exact ⟨congrArg Prod.fst this, congrArg Prod.snd this⟩
            subst ht
            refine ⟨List.mem_cons_self _ _, hm, horb.symm, ?_⟩
            intro u hu hmu
            rcases List.mem_cons.mp hu with h1 | h1
            · rw [h1, ← horb]
            · rw [← horb]
              exact le_trans hc (hminb u h1 hmu)
          · rw [if_neg hc] at h
            obtain ⟨ht, horb⟩ : tb = t ∧ ob = orb := by
              have := Option.some.inj h
              exact ⟨congrArg Prod.fst this, congrArg Prod.snd this⟩
            subst ht horb
            refine ⟨List.mem_cons_of_mem _ htb, hmtb, hob, ?_⟩
            intro u hu hmu
            rcases List.mem_cons.mp hu with h1 | h1
            · rw [h1]
              push_neg at hc
              exact le_of_lt hc
            · exact hminb u h1 hmu

theorem allPairs_mem {α : Type} (l : List α) (pr : α × α) (h : pr ∈ allPairs l) :
    pr.1 ∈ l ∧ pr.2 ∈ l := by
  induction l with
  | nil => exact absurd h (List.not_mem_nil _)
  | cons x xs ih =>
      unfold allPairs at h
      rcases List.mem_append.mp h with h1 | h1
      · obtain ⟨y, hy, hxy⟩ := List.mem_map.mp h1
        rw [← hxy]
        exact ⟨List.mem_cons_self _ _, List.mem_cons_of_mem _ hy⟩
      · obtain ⟨hp1, hp2⟩ := ih h1
        exact ⟨List.mem_cons_of_mem _ hp1, List.mem_cons_of_mem _ hp2⟩

theorem countP_filterMap_le {α β : Type} (f : α → Option β) (p : β → Bool) (q : α → Bool)
    (h : ∀ a b, f a = some b → p b = true → q a = true) (l : List α) :
    (l.filterMap f).countP p ≤ l.countP q := by
  induction l with
  | nil => simp
  | cons x xs ih =>
      rw [List.filterMap_cons]
      rcases hf : f x with _ | b
      · rw [List.countP_cons]
        rcases hq : q x with _ | _
        · simpa using ih
        · simp only [if_pos rfl]
          omega
      · rw [List.countP_cons, List.countP_cons]
        rcases hp : p b with _ | _
        · simp only [Bool.false_eq_true, if_false]
          rcases hq : q x with _ | _
          · simpa using ih
          · simp only [if_pos rfl]
            omega
        · have hqx : q x = true := h x b hf hp
          rw [hqx]
          simp only [if_pos rfl]
          omega

theorem countP_fst_eq_le_one {c : String} (xs : List (String × ℚ))
    (hnd : (xs.map Prod.fst).Nodup) :
    xs.countP (fun y => decide (y.1 = c)) ≤ 1 := by
  have h1 : xs.countP (fun y => decide (y.1 = c))
      = (xs.map Prod.fst).countP (fun s => decide (s = c)) := by
    rw [List.countP_map]
    rfl
  rw [h1]
  have h2 : (xs.map Prod.fst).countP (fun s => decide (s = c))
      = (xs.map Prod.fst).count c := by
    rw [List.count_eq_countP]
    apply List.countP_congr
    intro s _
    simp
  rw [h2]
  exact List.nodup_iff_count_le_one.mp hnd c

theorem allPairs_names_countP_le_one (a b : String) (l : List (String × ℚ))
    (hnd : (l.map Prod.fst).Nodup) :
    (allPairs l).countP
      (fun pr => decide ((pr.1.1 = a ∧ pr.2.1 = b) ∨ (pr.1.1 = b ∧ pr.2.1 = a))) ≤ 1 := by
  induction l with
  | nil => simp [allPairs]
  | cons x xs ih =>
      rw [List.map_cons, List.nodup_cons] at hnd
      obtain ⟨hx, hnd'⟩ := hnd
      unfold allPairs
      rw [List.countP_append, List.countP_map]
      by_cases hxa : x.1 = a
      · have hc2 : (allPairs xs).countP
            (fun pr => decide ((pr.1.1 = a ∧ pr.2.1 = b) ∨ (pr.1.1 = b ∧ pr.2.1 = a))) = 0 := by
          rw [List.countP_eq_zero]
          intro pr hpr
          obtain ⟨h1, h2⟩ := allPairs_mem xs pr hpr
          have hm1 : pr.1.1 ∈ xs.map Prod.fst := List.mem_map_of_mem _ h1
          have hm2 : pr.2.1 ∈ xs.map Prod.fst := List.mem_map_of_mem _ h2
          simp only [decide_eq_true_eq, not_or, not_and]
          constructor
          · intro ha1 _
            exact hx (by rw [hxa, ← ha1]; exact hm1)
          · intro _ hb2
            exact hx (by rw [hxa, ← hb2]; exact hm2)
        rw [hc2]
        by_cases hxb : x.1 = b
        · have hcong : xs.countP
              ((fun pr : (String × ℚ) × String × ℚ =>
                  decide ((pr.1.1 = a ∧ pr.2.1 = b) ∨ (pr.1.1 = b ∧ pr.2.1 = a))) ∘
                (fun y => (x, y)))
              = xs.countP (fun y => decide (y.1 = a)) := by
            apply List.countP_congr
            intro y _
            simp only [Function.comp_apply, decide_eq_true_eq]
            constructor
            · rintro (⟨_, hyb⟩ | ⟨_, hya⟩)
              · rw [hyb, ← hxb, hxa]
              · exact hya
            · intro hy
              exact Or.inr ⟨hxb, hy⟩
          rw [hcong]
          have := countP_fst_eq_le_one (c := a) xs hnd'
          omega
        · have hcong : xs.countP
              ((fun pr : (String × ℚ) × String × ℚ =>
                  decide ((pr.1.1 = a ∧ pr.2.1 = b) ∨ (pr.1.1 = b ∧ pr.2.1 = a))) ∘
                (fun y => (x, y)))
              = xs.countP (fun y => decide (y.1 = b)) := by
            apply List.countP_congr
            intro y _
            simp only [Function.comp_apply, decide_eq_true_eq]
            constructor
            · rintro (⟨_, hyb⟩ | ⟨hxb2, _⟩)
              · exact hyb
              · exact absurd hxb2 hxb
            · intro hy
              exact Or.inl ⟨hxa, hy⟩
          rw [hcong]
          have := countP_fst_eq_le_one (c := b) xs hnd'
          omega
      · by_cases hxb : x.1 = b
        · have hc2 : (allPairs xs).countP
              (fun pr => decide ((pr.1.1 = a ∧ pr.2.1 = b) ∨ (pr.1.1 = b ∧ pr.2.1 = a))) = 0 := by
            rw [List.countP_eq_zero]
            intro pr hpr
            obtain ⟨h1, h2⟩ := allPairs_mem xs pr hpr
            have hm1 : pr.1.1 ∈ xs.map Prod.fst := List.mem_map_of_mem _ h1
            have hm2 : pr.2.1 ∈ xs.map Prod.fst := List.mem_map_of_mem _ h2
            simp only [decide_eq_true_eq, not_or, not_and]
            constructor
            · intro _ hb1
              exact hx (by rw [hxb, ← hb1]; exact hm2)
            · intro hb1 _
              exact hx (by rw [hxb, ← hb1]; exact hm1)
          rw [hc2]
          have hcong : xs.countP
              ((fun pr : (String × ℚ) × String × ℚ =>
                  decide ((pr.1.1 = a ∧ pr.2.1 = b) ∨ (pr.1.1 = b ∧ pr.2.1 = a))) ∘
                (fun y => (x, y)))
              = xs.countP (fun y => decide (y.1 = a)) := by
            apply List.countP_congr
            intro y _
            simp only [Function.comp_apply, decide_eq_true_eq]
            constructor
            · rintro (⟨hxa2, _⟩ | ⟨_, hya⟩)
              · exact absurd hxa2 hxa
              · exact hya
            · intro hy
              exact Or.inr ⟨hxb, hy⟩
          rw [hcong]
          have := countP_fst_eq_le_one (c := a) xs hnd'
          omega
        · have hc1 : xs.countP
              ((fun pr : (String × ℚ) × String × ℚ =>
                  decide ((pr.1.1 = a ∧ pr.2.1 = b) ∨ (pr.1.1 = b ∧ pr.2.1 = a))) ∘
                (fun y => (x, y))) = 0 := by
            rw [List.countP_eq_zero]
            intro y _
            simp only [Function.comp_apply, decide_eq_true_eq, not_or, not_and]
            exact ⟨fun h => absurd h hxa, fun h => absurd h hxb⟩
          rw [hc1]
          have := ih hnd'
          omega

theorem detectAspects_pair_unique (types : List AspectType) (bodies : List (String × ℚ))
    (a b : String) (hnd : (bodies.map Prod.fst).Nodup) :
    (detectAspects types bodies).countP (matchesUnorderedPair a b) ≤ 1 := by
  unfold detectAspects
  refine le_trans
    (countP_filterMap_le _ _
      (fun pr => decide ((pr.1.1 = a ∧ pr.2.1 = b) ∨ (pr.1.1 = b ∧ pr.2.1 = a))) ?_ _)
    (allPairs_names_countP_le_one a b bodies hnd)
  intro p r hf hp
  unfold detectPairAspect at hf
  rcases hbest : bestAspect types (separationOf p.1.2 p.2.2) with _ | q
  · rw [hbest] at hf
    exact Option.noConfusion hf
  · rw [hbest] at hf
    rcases q with ⟨t, orb⟩
    dsimp only at hf
    have hr := Option.some.inj hf
    rw [← hr] at hp
    unfold matchesUnorderedPair at hp
    simp only [decide_eq_true_eq] at hp ⊢
    exact hp

/-- C5: for every unordered pair of bodies the detector computes
`separation = min(|lonA-lonB|, 360-|lonA-lonB|)`, which lies in [0,180]
for longitudes in [0,360); an aspect is emitted with a given type exactly
when some configured type matches (`|separation - exactAngle| ≤ maxOrb`),
the emitted record's signed orb is `separation - exactAngle` of its type
and is within that type's orb, and when several types match only the one
with the smallest `|orb|` is retained; over a body list with distinct
names, no unordered pair ever yields more than one aspect record. -/
theorem C5_aspect_detection :
    (∀ lonA lonB : ℚ, 0 ≤ lonA → lonA < 360 → 0 ≤ lonB → lonB < 360 →
        0 ≤ separationOf lonA lonB ∧ separationOf lonA lonB ≤ 180)
    ∧ (∀ (types : List AspectType) (sep : ℚ) (t : AspectType) (orb : ℚ),
        bestAspect types sep = some (t, orb) →
          t ∈ types ∧ orb = sep - t.exactAngle ∧ |orb| ≤ t.maxOrb
          ∧ ∀ u ∈ types, aspectMatches u sep = true → |orb| ≤ |sep - u.exactAngle|)
    ∧ (∀ (types : List AspectType) (sep : ℚ),
        bestAspect types sep = none ↔ ∀ u ∈ types, aspectMatches u sep = false)
    ∧ (∀ (types : List AspectType) (bodies : List (String × ℚ)) (a b : String),
        (bodies.map Prod.fst).Nodup →
          (detectAspects types bodies).countP (matchesUnorderedPair a b) ≤ 1) := by
  refine ⟨?_, ?_, ?_, ?_⟩
  · intro lonA lonB ha0 ha1 hb0 hb1
    exact separationOf_bounds ha0 ha1 hb0 hb1
  · intro types sep t orb h
    obtain ⟨hmem, hmt, horb, hmin⟩ := bestAspect_some_spec types sep t orb h
    refine ⟨hmem, horb, ?_, hmin⟩
    have := of_decide_eq_true hmt
    rw [horb]
    exact this
  · intro types sep
    exact bestAspect_none_iff types sep
  · intro types bodies a b hnd
    exact detectAspects_pair_unique types bodies a b hnd

/-- C5 witness: the separation bound at concrete longitudes 10 and 350, and
the at-most-one-record-per-pair bound on a concrete chart with three
distinctly named bodies. -/
theorem C5_aspect_detection_witness :
    (0 ≤ separationOf 10 350 ∧ separationOf 10 350 ≤ 180)
    ∧ (detectAspects demoAspectTypes demoBodies).countP
        (matchesUnorderedPair "Sun" "Moon") ≤ 1 :=
  ⟨C5_aspect_detection.1 10 350 (by decide) (by decide) (by decide) (by decide),
   C5_aspect_detection.2.2.2 demoAspectTypes demoBodies "Sun" "Moon" (by decide)⟩

/- ===================== Theorems: C7 ===================== -/

/-- C7: if the birth instant falls outside the ephemeris provider's
supported calendar range (and the request is otherwise well-formed, with at
least one body requested), `calculateChart` returns the
`EphemerisRangeExceeded` error, and no `ChartResult` — not even a partial
one — is produced. -/
theorem C7_ephemeris_range_terminal (p : EphemerisProvider)
    (solver : HouseSystem → BirthGeometry → Option (List ℚ))
    (angles : BirthGeometry → ℚ × ℚ) (input : BirthInput) (cfg : ChartConfig)
    (hyear : input.instant.year < p.minYear ∨ p.maxYear < input.instant.year)
    (hcoord : ¬(90 < |input.latitude| ∨ 180 < |input.longitude|))
    (hbodies : cfg.bodies ≠ []) :
    calculateChart p solver angles input cfg
        = Except.error DomainError.ephemerisRangeExceeded
    ∧ ∀ c : ChartResult, calculateChart p solver angles input cfg ≠ Except.ok c := by
  obtain ⟨b, bs, hb⟩ : ∃ b bs, cfg.bodies = b :: bs := by
    rcases hcb : cfg.bodies with _ | ⟨b, bs⟩
    · exact absurd hcb hbodies
    · exact ⟨b, bs, rfl⟩
  have hpos : positionAt p input.instant b = Except.error DomainError.ephemerisRangeExceeded := by
    unfold positionAt
    rw [if_pos hyear]
  have hres : resolveBodies p input.instant cfg.bodies
      = Except.error DomainError.ephemerisRangeExceeded := by
    rw [hb]
    unfold resolveBodies
    rw [hpos]
  have hmain : calculateChart p solver angles input cfg
      = Except.error DomainError.ephemerisRangeExceeded := by
    unfold calculateChart
    rw [if_neg hcoord, hres]
  refine ⟨hmain, fun c hc => ?_⟩
  rw [hmain] at hc
  exact Except.noConfusion hc

/-- C7 witness: a concrete request in year 9999 against a provider whose
range is 1800-2400 returns `EphemerisRangeExceeded` and never an `ok`
chart. -/
theorem C7_ephemeris_range_witness :
    calculateChart demoProvider (fun _ _ => none) (fun _ => (0, 90))
        ⟨⟨9999, 0⟩, 40, -74⟩ ⟨HouseSystem.placidus, ["Sun"], demoAspectTypes⟩
      = Except.error DomainError.ephemerisRangeExceeded
    ∧ ∀ c : ChartResult,
        calculateChart demoProvider (fun _ _ => none) (fun _ => (0, 90))
            ⟨⟨9999, 0⟩, 40, -74⟩ ⟨HouseSystem.placidus, ["Sun"], demoAspectTypes⟩
          ≠ Except.ok c :=
  C7_ephemeris_range_terminal demoProvider (fun _ _ => none) (fun _ => (0, 90))
    ⟨⟨9999, 0⟩, 40, -74⟩ ⟨HouseSystem.placidus, ["Sun"], demoAspectTypes⟩
    (by decide) (by decide) (by decide)

/- ===================== Theorems: C8 ===================== -/

/-- C8: the SolarSet is a derived projection consisting of exactly the
Sun's sign, the Sun's house, the Sun's degree, the sign on the fifth house
cusp, and precisely those aspects of the chart that are hard (square or
opposition) and involve the Sun. -/
theorem C8_solar_set_projection (bodies : List BodyPlacement) (houses : List HouseRec)
    (aspects : List AspectRecord) (sun : BodyPlacement) (fifth : HouseRec) (s : SolarSet)
    (hsun : bodies.find? (fun b => b.name == "Sun") = some sun)
    (hfifth : houses.find? (fun h => h.number == 5) = some fifth)
    (hs : computeSolarSet bodies houses aspects = some s) :
    sun.name = "Sun" ∧ fifth.number = 5
    ∧ s.sunSign = sun.sign ∧ s.sunHouse = sun.house ∧ s.sunDegree = sun.degree
    ∧ s.fifthHouseSign = fifth.sign
    ∧ ∀ r : AspectRecord, r ∈ s.hardAspects ↔
        (r ∈ aspects ∧ (r.aspectType = "square" ∨ r.aspectType = "opposition")
          ∧ (r.planet1 = "Sun" ∨ r.planet2 = "Sun")) := by
  have hname : sun.name = "Sun" := by
    have := List.find?_some hsun
    simpa using this
  have hnum : fifth.number = 5 := by
    have := List.find?_some hfifth
    simpa using this
  unfold computeSolarSet at hs
  rw [hsun, hfifth] at hs
  dsimp only at hs
  have hsval := Option.some.inj hs
  subst hsval
  refine ⟨hname, hnum, rfl, rfl, rfl, rfl, ?_⟩
  intro r
  rw [List.mem_filter]
  simp [isHardAspect, involvesSun]

/-- C8 witness: the projection instantiated on a concrete chart — the
resulting SolarSet carries the Sun's sign Aries, house 10, degree 25, the
fifth-house sign Scorpio, and exactly the two hard aspects involving the
Sun. -/
theorem C8_solar_set_witness :
    demoPlacements.find? (fun b => b.name == "Sun") = some ⟨"Sun", "Aries", 25, 10⟩
    ∧ demoHouses.find? (fun h => h.number == 5) = some ⟨5, "Scorpio"⟩
    ∧ computeSolarSet demoPlacements demoHouses demoAspects
        = some ⟨"Aries", 10, 25, "Scorpio",
            [⟨"Sun", "Moon", "square", 2⟩, ⟨"Venus", "Sun", "opposition", 3⟩]⟩
    ∧ ((⟨"Sun", "Aries", 25, 10⟩ : BodyPlacement).name = "Sun"
        ∧ (⟨5, "Scorpio"⟩ : HouseRec).number = 5
        ∧ (⟨"Aries", 10, 25, "Scorpio",
            [⟨"Sun", "Moon", "square", 2⟩, ⟨"Venus", "Sun", "opposition", 3⟩]⟩ : SolarSet).sunSign
            = (⟨"Sun", "Aries", 25, 10⟩ : BodyPlacement).sign
        ∧ (⟨"Aries", 10, 25, "Scorpio",
            [⟨"Sun", "Moon", "square", 2⟩, ⟨"Venus", "Sun", "opposition", 3⟩]⟩ : SolarSet).sunHouse
            = (⟨"Sun", "Aries", 25, 10⟩ : BodyPlacement).house
        ∧ (⟨"Aries", 10, 25, "Scorpio",
            [⟨"Sun", "Moon", "square", 2⟩, ⟨"Venus", "Sun", "opposition", 3⟩]⟩ : SolarSet).sunDegree
            = (⟨"Sun", "Aries", 25, 10⟩ : BodyPlacement).degree
        ∧ (⟨"Aries", 10, 25, "Scorpio",
            [⟨"Sun", "Moon", "square", 2⟩, ⟨"Venus", "Sun", "opposition", 3⟩]⟩ : SolarSet).fifthHouseSign
            = (⟨5, "Scorpio"⟩ : HouseRec).sign
        ∧ ∀ r : AspectRecord,
            r ∈ (⟨"Aries", 10, 25, "Scorpio",
              [⟨"Sun", "Moon", "square", 2⟩,
               ⟨"Venus", "Sun", "opposition", 3⟩]⟩ : SolarSet).hardAspects ↔
              (r ∈ demoAspects ∧ (r.aspectType = "square" ∨ r.aspectType = "opposition")
                ∧ (r.planet1 = "Sun" ∨ r.planet2 = "Sun"))) :=
  ⟨by decide, by decide, by decide,
   C8_solar_set_projection demoPlacements demoHouses demoAspects
     ⟨"Sun", "Aries", 25, 10⟩ ⟨5, "Scorpio"⟩
     ⟨"Aries", 10, 25, "Scorpio",
       [⟨"Sun", "Moon", "square", 2⟩, ⟨"Venus", "Sun", "opposition", 3⟩]⟩
     (by decide) (by decide) (by decide)⟩
